import Mathlib

/-!
Verification of the audio emotion-detection core: a shallow embedding of the
classifier in `src/utils/emotionModel.ts` and the feature extractor in
`src/utils/audioProcessor.ts`, with JavaScript numbers modelled as real
numbers.  Definitions mirror the source line by line; theorems settle the
frozen specification claims.
-/

namespace EmotionDetection

/-- The eight emotion labels in the fixed canonical order of
`EmotionModel.emotions` (emotionModel.ts line 7). -/
def emotions : List String :=
  ["neutral", "calm", "happy", "sad", "angry", "fearful", "disgust", "surprised"]

/-- `EmotionModel.inputSize` (emotionModel.ts line 8). -/
def inputSize : ℕ := 39

/-- `EmotionModel.hiddenSize` (emotionModel.ts line 9). -/
def hiddenSize : ℕ := 64

/-- `EmotionModel.outputSize` (emotionModel.ts line 10). -/
def outputSize : ℕ := 8

/-- The fixed epoch count of `trainModel` (emotionModel.ts line 45). -/
def numEpochs : ℕ := 100

/-- The fixed learning rate of `trainModel` (emotionModel.ts line 46). -/
noncomputable def learningRate : ℝ := 0.01

/-- The mutable state of an `EmotionModel` instance.  The source stores the two
weight matrices in a single array `this.weights = [W1, W2]` and the two bias
vectors in `this.biases = [b1, b2]`; they are modelled as four separate
fields. -/
structure Model where
  weights1 : List (List ℝ)
  biases1 : List ℝ
  weights2 : List (List ℝ)
  biases2 : List ℝ
  isTrained : Bool

/-- `weightRow.reduce((sum, weight, j) => sum + weight * features[j], 0)`
(emotionModel.ts lines 107 and 115).  `zipWith` drops the terms past the end
of `x`; the source would produce NaN there (`features[j]` is `undefined`), so
theorems about shorter-than-row inputs are never stated from this model. -/
noncomputable def dotList (row x : List ℝ) : ℝ :=
  (List.zipWith (fun w v => w * v) row x).sum

/-- One dense layer: row `i` contributes `dot(row, x) + b[i]`
(emotionModel.ts lines 106-108 and 114-116). -/
noncomputable def layer (w : List (List ℝ)) (b : List ℝ) (x : List ℝ) : List ℝ :=
  List.zipWith (fun row bi => dotList row x + bi) w b

/-- `Math.max(0, x)` (emotionModel.ts line 111). -/
noncomputable def relu (x : ℝ) : ℝ := max 0 x

/-- `forward` (emotionModel.ts lines 104-119): returns
`(hiddenOutput, finalOutput)`. -/
noncomputable def forward (m : Model) (features : List ℝ) : List ℝ × List ℝ :=
  let hiddenOutput := (layer m.weights1 m.biases1 features).map relu
  (hiddenOutput, layer m.weights2 m.biases2 hiddenOutput)

/-- `Math.max(...values)` as used on a non-empty list; on `[]` the source
yields `-Infinity`, never exercised here. -/
noncomputable def listMax : List ℝ → ℝ
  | [] => 0
  | x :: xs => xs.foldl max x

/-- `softmax` (emotionModel.ts lines 158-163), max-subtraction stabilised. -/
noncomputable def softmax (values : List ℝ) : List ℝ :=
  let maxVal := listMax values
  let expValues := values.map (fun v => Real.exp (v - maxVal))
  let sumExp := expValues.sum
  expValues.map (fun e => e / sumExp)

/-- `probabilities.indexOf(target)`: index of the first occurrence of `t`
(`0` past the end, which is never reached in use). -/
noncomputable def idxOfAux (t : ℝ) : List ℝ → ℕ
  | [] => 0
  | x :: xs => if x = t then 0 else idxOfAux t xs + 1

/-- `probabilities.indexOf(Math.max(...probabilities))`
(emotionModel.ts lines 97 and 240). -/
noncomputable def idxOfMax (l : List ℝ) : ℕ := idxOfAux (listMax l) l

/-- Out-of-range label lookup default (source would yield `undefined`). -/
def noLabel : String := ""

/-- The record returned by `predict` (emotionModel.ts line 85). -/
structure Prediction where
  emotion : String
  confidence : ℝ
  probabilities : List ℝ

/-- The score table of `ruleBasedPrediction` (emotionModel.ts lines 176-234)
after all conditional increments, listed in the canonical emotion order
`[neutral, calm, happy, sad, angry, fearful, disgust, surprised]`.
Base scores: neutral `0.2`, every other class `0.1`. -/
noncomputable def emotionScores (spectralCentroid zcr rmsEnergy f0
    pitchVariation speakingRate : ℝ) : List ℝ :=
  [0.2,
   0.1 + (if rmsEnergy < 0.05 ∧ ¬(f0 < 150) then 0.3 else 0)
       + (if speakingRate < 2 then 0.1 else 0),
   0.1 + (if rmsEnergy > 0.1 ∧ pitchVariation > 50 ∧ f0 > 200 then 0.2 else 0)
       + (if spectralCentroid > 0.6 then 0.2 else 0)
       + (if speakingRate > 5 then 0.1 else 0),
   0.1 + (if rmsEnergy < 0.05 ∧ f0 < 150 then 0.3 else 0)
       + (if spectralCentroid < 0.3 then 0.2 else 0)
       + (if speakingRate < 2 then 0.1 else 0),
   0.1 + (if rmsEnergy > 0.1 ∧ pitchVariation > 50 ∧ ¬(f0 > 200) then 0.3 else 0)
       + (if spectralCentroid < 0.3 then 0.1 else 0),
   0.1 + (if zcr > 0.1 then 0.2 else 0),
   0.1 + (if zcr > 0.1 then 0.1 else 0),
   0.1 + (if rmsEnergy > 0.1 ∧ pitchVariation > 50 ∧ f0 > 200 then 0.3 else 0)
       + (if spectralCentroid > 0.6 then 0.1 else 0)
       + (if speakingRate > 5 then 0.1 else 0)]

/-- `ruleBasedPrediction` (emotionModel.ts lines 165-245).  The source
destructures `features` as
`[spectralCentroid, spectralRolloff, zcr, rmsEnergy, f0, pitchVariation,
speakingRate, ...mfccFeatures]`; `spectralRolloff` and the MFCC tail are
never read. -/
noncomputable def ruleBasedPrediction (features : List ℝ) : Prediction :=
  let scores := emotionScores (features.getD 0 0) (features.getD 2 0)
      (features.getD 3 0) (features.getD 4 0) (features.getD 5 0)
      (features.getD 6 0)
  let totalScore := scores.sum
  let probabilities := scores.map (fun s => s / totalScore)
  let maxIndex := idxOfMax probabilities
  ⟨emotions.getD maxIndex noLabel, probabilities.getD maxIndex 0, probabilities⟩

/-- `predict` (emotionModel.ts lines 85-102): rule-based fallback when
untrained, otherwise softmax over the forward pass's logits. -/
noncomputable def predict (m : Model) (features : List ℝ) : Prediction :=
  if m.isTrained then
    let probabilities := softmax (forward m features).2
    let maxIndex := idxOfMax probabilities
    ⟨emotions.getD maxIndex noLabel, probabilities.getD maxIndex 0, probabilities⟩
  else ruleBasedPrediction features

/-- `backward` (emotionModel.ts lines 121-148).  Note the source updates the
output layer in place before reading `this.weights[1]` for the hidden
gradients, so `hiddenGradients` is computed from the already-updated `W2`;
the model reproduces that order. -/
noncomputable def backward (m : Model) (features hiddenOutput finalOutput
    target : List ℝ) (lr : ℝ) : Model :=
  let outputGradients := List.zipWith (fun o t => o - t) finalOutput target
  let w2' := List.zipWith
      (fun row g => List.zipWith (fun w h => w - lr * g * h) row hiddenOutput)
      m.weights2 outputGradients
  let b2' := List.zipWith (fun b g => b - lr * g) m.biases2 outputGradients
  let hiddenGradients := hiddenOutput.mapIdx (fun j h =>
      if h > 0
      then (List.zipWith (fun g row => g * row.getD j 0) outputGradients w2').sum
      else 0)
  let w1' := List.zipWith
      (fun row g => List.zipWith (fun w v => w - lr * g * v) row features)
      m.weights1 hiddenGradients
  let b1' := List.zipWith (fun b g => b - lr * g) m.biases1 hiddenGradients
  ⟨w1', b1', w2', b2', m.isTrained⟩

/-- A training sample `{features, emotion}` (emotionModel.ts line 42). -/
structure Sample where
  features : List ℝ
  emotion : String

/-- The one-hot target vector (emotionModel.ts lines 64-65). -/
noncomputable def oneHot (k : ℕ) : List ℝ :=
  (List.range outputSize).map (fun i => if i = k then 1 else 0)

/-- One iteration of the inner training loop (emotionModel.ts lines 54-73):
samples whose label is not in `emotions` are skipped (`indexOf === -1`),
otherwise forward pass, one-hot target and backward update.  The
cross-entropy loss of line 68 only feeds the console log and is omitted. -/
noncomputable def trainStep (lr : ℝ) (m : Model) (s : Sample) : Model :=
  match emotions.findIdx? (fun e => e == s.emotion) with
  | none => m
  | some k =>
      let fw := forward m s.features
      backward m s.features fw.1 fw.2 (oneHot k) lr

/-- `trainModel` (emotionModel.ts lines 42-82).  The source shuffles the data
each epoch with `sort(() => Math.random() - 0.5)`, which produces some
permutation of the corpus; the shuffle is abstracted as an oracle
`shuffle : epoch → data → reordered data`.  Exactly `numEpochs` epochs run;
`isTrained` is set afterwards unconditionally. -/
noncomputable def trainModel (m : Model) (trainingData : List Sample)
    (shuffle : ℕ → List Sample → List Sample) : Model :=
  let final := (List.range numEpochs).foldl
      (fun acc epoch => (shuffle epoch trainingData).foldl (trainStep learningRate) acc) m
  { final with isTrained := true }

/-- The blob returned by `exportModel` (emotionModel.ts lines 262-269). -/
structure ModelData where
  weights1 : List (List ℝ)
  biases1 : List ℝ
  weights2 : List (List ℝ)
  biases2 : List ℝ
  isTrained : Bool
  emotionList : List String

/-- `exportModel` (emotionModel.ts lines 262-269). -/
def exportModel (m : Model) : ModelData :=
  ⟨m.weights1, m.biases1, m.weights2, m.biases2, m.isTrained, emotions⟩

/-- `importModel` (emotionModel.ts lines 271-276): overwrites the weights,
biases and trained flag of the target instance with the blob's; the blob's
`emotions` entry is not read back (the class's label list is a constant). -/
def importModel (_target : Model) (d : ModelData) : Model :=
  ⟨d.weights1, d.biases1, d.weights2, d.biases2, d.isTrained⟩

/-- The parameter shapes produced by `initializeWeights`
(emotionModel.ts lines 16-39): `W1 : 64×39`, `b1 : 64`, `W2 : 8×64`,
`b2 : 8`. -/
def WellFormed (m : Model) : Prop :=
  m.weights1.length = hiddenSize ∧ (∀ row ∈ m.weights1, row.length = inputSize) ∧
  m.biases1.length = hiddenSize ∧ m.weights2.length = outputSize ∧
  (∀ row ∈ m.weights2, row.length = hiddenSize) ∧ m.biases2.length = outputSize

/-- A well-formed model with all parameters zero and the trained flag set;
used as a concrete evaluation point. -/
noncomputable def zeroTrainedModel : Model :=
  ⟨List.replicate hiddenSize (List.replicate inputSize 0),
   List.replicate hiddenSize 0,
   List.replicate outputSize (List.replicate hiddenSize 0),
   List.replicate outputSize 0, true⟩

/-- The same parameters with the trained flag cleared. -/
noncomputable def untrainedModel : Model := { zeroTrainedModel with isTrained := false }

/-- A 20-wide feature vector with `rmsEnergy = 0.02`, `f0 = 120` and an
otherwise neutral baseline (`spectralCentroid = 0.45`, `zcr = 0.05`,
`pitchVariation = 0`, `speakingRate = 3`, zero MFCC tail). -/
noncomputable def sadVector : List ℝ :=
  [0.45, 0, 0.05, 0.02, 120, 0, 3] ++ List.replicate 13 0

/-- A 20-wide feature vector triggering none of the rule thresholds
(`rmsEnergy = 0.07`). -/
noncomputable def neutralVector : List ℝ :=
  [0.45, 0, 0.05, 0.07, 120, 0, 3] ++ List.replicate 13 0

/-- A one-sample corpus whose label is not one of the eight classes. -/
noncomputable def unknownCorpus : List Sample := [⟨[], "mystery"⟩]

/-- A minimal 1-1-1-shaped model used to evaluate one backward step. -/
noncomputable def tinyModel : Model := ⟨[[0]], [0], [[0]], [0], false⟩

/-- A single training sample with label "neutral" (class index 0). -/
noncomputable def tinySample : Sample := ⟨[0], "neutral"⟩

/-! ## Feature extractor (`src/utils/audioProcessor.ts`) -/

/-- `computeRMSEnergy` (audioProcessor.ts lines 204-210). -/
noncomputable def computeRMSEnergy (signal : List ℝ) : ℝ :=
  Real.sqrt ((signal.map (fun x => x * x)).sum / signal.length)

/-- The number of adjacent pairs `(signal[i-1], signal[i])` whose sign bits
differ under the `>= 0` test (audioProcessor.ts lines 195-200). -/
noncomputable def crossingCount (signal : List ℝ) : ℕ :=
  (List.zipWith
    (fun a b => if (0 ≤ a ∧ ¬0 ≤ b) ∨ (¬0 ≤ a ∧ 0 ≤ b) then 1 else 0)
    signal signal.tail).sum

/-- `computeZeroCrossingRate` (audioProcessor.ts lines 194-202): the crossing
count divided by `signal.length` (not by the number of pairs). -/
noncomputable def computeZeroCrossingRate (signal : List ℝ) : ℝ :=
  (crossingCount signal : ℝ) / signal.length

/-- The claim/spec-side count: the number of indices `i` of adjacent sample
pairs `(signal[i], signal[i+1])` whose signs differ under the
`(x ≥ 0)` versus `(x < 0)` test.  Written from the specification's words for
comparison against `computeZeroCrossingRate`. -/
noncomputable def signDiffCount (signal : List ℝ) : ℕ :=
  (List.range (signal.length - 1)).countP
    (fun i => decide (¬(0 ≤ signal.getD i 0 ↔ 0 ≤ signal.getD (i + 1) 0)))

/-- The mean-product autocorrelation at a candidate period
(audioProcessor.ts lines 220-229): `Σ signal[i]·signal[i+period]` over the
`signal.length - period` available offsets, divided by that count.  (For
`count = 0` the source computes `0/0 = NaN`, which then fails the strict
`>` test exactly as this model's junk value `0` does.) -/
noncomputable def autocorr (signal : List ℝ) (period : ℕ) : ℝ :=
  (List.zipWith (fun a b => a * b) signal (signal.drop period)).sum /
    ((signal.length - period : ℕ) : ℝ)

/-- `estimateF0` (audioProcessor.ts lines 212-238): scan periods from
`⌊sampleRate/500⌋` to `⌊sampleRate/50⌋`, keep the first period whose
correlation strictly beats every earlier one (starting from the threshold
`0` and `bestPeriod = minPeriod`), and return `sampleRate / bestPeriod`. -/
noncomputable def estimateF0 (signal : List ℝ) (sampleRate : ℕ) : ℝ :=
  let minPeriod := sampleRate / 500
  let maxPeriod := sampleRate / 50
  let best := (List.range' minPeriod (maxPeriod + 1 - minPeriod)).foldl
      (fun acc period =>
        if autocorr signal period > acc.1 then (autocorr signal period, period) else acc)
      ((0 : ℝ), minPeriod)
  (sampleRate : ℝ) / best.2

/-- The start offsets of the loop `for (i = 0; i < limit; i += stride)`: the
multiples of `stride` below `limit`.  For `stride = 0` the source loop never
terminates (only reachable when `sampleRate < 100`); the model then
degenerates to the single start `0`. -/
def frameStarts (limit stride : ℕ) : List ℕ :=
  (List.range limit).filter (fun i => i % stride == 0)

/-- `Math.floor(0.025 * sampleRate)`, the 25 ms frame length. -/
def frameLength (sampleRate : ℕ) : ℕ := sampleRate / 40

/-- `Math.floor(0.01 * sampleRate)`, the 10 ms hop length. -/
def hopLength (sampleRate : ℕ) : ℕ := sampleRate / 100

/-- `computePitchVariation` (audioProcessor.ts lines 240-259): per-frame
`estimateF0`, keep estimates strictly inside `(50, 500)` Hz, return the
standard deviation (or `0` when fewer than two frames survive). -/
noncomputable def computePitchVariation (signal : List ℝ) (sampleRate : ℕ) : ℝ :=
  let frameSize := frameLength sampleRate
  let hopSize := hopLength sampleRate
  let pitches := ((frameStarts (signal.length - frameSize) hopSize).map
      (fun i => estimateF0 ((signal.drop i).take frameSize) sampleRate)).filter
      (fun p => decide (50 < p ∧ p < 500))
  if pitches.length < 2 then 0
  else
    let mean := pitches.sum / pitches.length
    let variance := (pitches.map (fun p => ((p - mean) ^ 2 : ℝ))).sum / pitches.length
    Real.sqrt variance

/-- `estimateSpeakingRate` (audioProcessor.ts lines 261-284): RMS energy per
non-overlapping 10 ms block, count strict local maxima above `0.3 ×` the mean
block energy, divide by the clip duration in seconds. -/
noncomputable def estimateSpeakingRate (signal : List ℝ) (sampleRate : ℕ) : ℝ :=
  let frameSize := sampleRate / 100
  let energies := (frameStarts (signal.length - frameSize) frameSize).map
      (fun i => computeRMSEnergy ((signal.drop i).take frameSize))
  let threshold := energies.sum / energies.length * 0.3
  let peaks := ((List.range' 1 (energies.length - 1 - 1)).filter (fun i =>
      decide (energies.getD i 0 > threshold ∧
        energies.getD i 0 > energies.getD (i - 1) 0 ∧
        energies.getD i 0 > energies.getD (i + 1) 0))).length
  let durationSeconds := (signal.length : ℝ) / sampleRate
  (peaks : ℝ) / durationSeconds

/-- `applyHammingWindow` (audioProcessor.ts lines 84-90). -/
noncomputable def applyHammingWindow (frame : List ℝ) : List ℝ :=
  frame.mapIdx (fun i x =>
    x * (0.54 - 0.46 * Real.cos (2 * Real.pi * i / ((frame.length : ℝ) - 1))))

/-- `computeFFT` (audioProcessor.ts lines 92-111): the O(n²) DFT, one
`(real, imag)` pair per bin. -/
noncomputable def computeFFT (signal : List ℝ) : List (ℝ × ℝ) :=
  (List.range signal.length).map (fun (k : ℕ) =>
    ((signal.mapIdx (fun n x =>
        x * Real.cos (-2 * Real.pi * k * n / signal.length))).sum,
     (signal.mapIdx (fun n x =>
        x * Real.sin (-2 * Real.pi * k * n / signal.length))).sum))

/-- `hzToMel` (audioProcessor.ts lines 159-161). -/
noncomputable def hzToMel (hz : ℝ) : ℝ := 2595 * Real.logb 10 (1 + hz / 700)

/-- `melToHz` (audioProcessor.ts lines 163-165). -/
noncomputable def melToHz (mel : ℝ) : ℝ := 700 * ((10 : ℝ) ^ (mel / 2595) - 1)

/-- The filter count of `applyMelFilterBank` (audioProcessor.ts line 114). -/
def numFilters : ℕ := 26

/-- `applyMelFilterBank` (audioProcessor.ts lines 113-142): 26 triangular
filters linear in mel frequency, each producing `log(Σ weight·magnitude +
1e-10)`.  The source's bin loop runs while `j < fft.length / 2` with real
division, i.e. over `⌈fft.length / 2⌉` bins. -/
noncomputable def applyMelFilterBank (fft : List (ℝ × ℝ)) (sampleRate : ℕ) : List ℝ :=
  (List.range numFilters).map (fun (i : ℕ) =>
    let melRange := hzToMel ((sampleRate : ℝ) / 2) - hzToMel 0
    let startFreq := melToHz (hzToMel 0 + i * melRange / (numFilters + 1))
    let centerFreq := melToHz (hzToMel 0 + (i + 1) * melRange / (numFilters + 1))
    let endFreq := melToHz (hzToMel 0 + (i + 2) * melRange / (numFilters + 1))
    let contributions := (List.range ((fft.length + 1) / 2)).map (fun (j : ℕ) =>
      let freq := (j : ℝ) * sampleRate / fft.length
      let weight :=
        if startFreq ≤ freq ∧ freq ≤ centerFreq then
          (freq - startFreq) / (centerFreq - startFreq)
        else if centerFreq < freq ∧ freq ≤ endFreq then
          (endFreq - freq) / (endFreq - centerFreq)
        else 0
      let p := fft.getD j (0, 0)
      weight * Real.sqrt (p.1 * p.1 + p.2 * p.2))
    Real.log (contributions.sum + 1e-10))

/-- `computeDCT` (audioProcessor.ts lines 144-157). -/
noncomputable def computeDCT (melSpectrum : List ℝ) : List ℝ :=
  (List.range melSpectrum.length).map (fun (k : ℕ) =>
    (melSpectrum.mapIdx (fun n m =>
      m * Real.cos (Real.pi * k * (n + 0.5) / melSpectrum.length))).sum)

/-- `Math.floor((channelData.length - frameLength) / hopLength) + 1`
(audioProcessor.ts line 20), computed in `ℤ` with floor division since the
numerator is negative for signals shorter than one frame. -/
def mfccNumFrames (len fl hl : ℕ) : ℤ := Int.fdiv ((len : ℤ) - fl) hl + 1

/-- `extractMFCC` (audioProcessor.ts lines 13-44): frame, window, DFT, mel
filterbank, DCT, keep 13 coefficients per frame.  The loop `for (i = 0;
i < numFrames; i++)` runs `max(numFrames, 0)` times. -/
noncomputable def extractMFCC (signal : List ℝ) (sampleRate : ℕ) : List (List ℝ) :=
  let fl := frameLength sampleRate
  let hl := hopLength sampleRate
  (List.range (mfccNumFrames signal.length fl hl).toNat).map (fun i =>
    let frame := (signal.drop (i * hl)).take fl
    (computeDCT (applyMelFilterBank (computeFFT (applyHammingWindow frame))
      sampleRate)).take 13)

/-! ## Helper lemmas -/

lemma sum_map_div (l : List ℝ) (c : ℝ) :
    (l.map (fun x => x / c)).sum = l.sum / c := by
  induction l with
  | nil => simp
  | cons a t ih => simp [ih, add_div]

lemma normalized_sum_one (l : List ℝ) (hpos : ∀ x ∈ l, 0 < x) (hne : l ≠ []) :
    (l.map (fun x => x / l.sum)).sum = 1 := by
  rw [sum_map_div]
  exact div_self (ne_of_gt (List.sum_pos l hpos hne))

lemma normalized_mem_bounds (l : List ℝ) (hpos : ∀ x ∈ l, 0 < x) :
    ∀ p ∈ l.map (fun x => x / l.sum), 0 ≤ p ∧ p ≤ 1 := by
  intro p hp
  rcases List.mem_map.1 hp with ⟨x, hx, rfl⟩
  have hS : 0 < l.sum := List.sum_pos l hpos (List.ne_nil_of_mem hx)
  refine ⟨div_nonneg (le_of_lt (hpos x hx)) (le_of_lt hS), ?_⟩
  rw [div_le_one hS]
  exact List.single_le_sum (fun y hy => le_of_lt (hpos y hy)) x hx

lemma softmax_length (values : List ℝ) : (softmax values).length = values.length := by
  simp [softmax]

lemma exp_map_pos (values : List ℝ) (c : ℝ) :
    ∀ x ∈ values.map (fun v => Real.exp (v - c)), 0 < x := by
  intro x hx
  rcases List.mem_map.1 hx with ⟨v, _, rfl⟩
  exact Real.exp_pos _

lemma softmax_sum_one (values : List ℝ) (hne : values ≠ []) :
    (softmax values).sum = 1 := by
  unfold softmax
  exact normalized_sum_one _ (exp_map_pos values _) (by simpa using hne)

lemma softmax_mem_bounds (values : List ℝ) :
    ∀ p ∈ softmax values, 0 ≤ p ∧ p ≤ 1 := by
  unfold softmax
  exact normalized_mem_bounds _ (exp_map_pos values _)

lemma ite_nonneg {c : Prop} [Decidable c] {a b : ℝ} (ha : 0 ≤ a) (hb : 0 ≤ b) :
    0 ≤ if c then a else b := by
  split
  · exact ha
  · exact hb

lemma emotionScores_pos (sc zcr rms f0 pv spr : ℝ) :
    ∀ x ∈ emotionScores sc zcr rms f0 pv spr, 0 < x := by
  intro x hx
  simp only [emotionScores, List.mem_cons, List.not_mem_nil, or_false] at hx
  rcases hx with h | h | h | h | h | h | h | h <;> subst h <;>
    have h1 := @ite_nonneg (rms < 0.05 ∧ ¬(f0 < 150)) _ 0.3 0 (by norm_num) le_rfl <;>
    have h2 := @ite_nonneg (spr < 2) _ 0.1 0 (by norm_num) le_rfl <;>
    have h3 := @ite_nonneg (rms > 0.1 ∧ pv > 50 ∧ f0 > 200) _ 0.2 0 (by norm_num) le_rfl <;>
    have h4 := @ite_nonneg (sc > 0.6) _ 0.2 0 (by norm_num) le_rfl <;>
    have h5 := @ite_nonneg (spr > 5) _ 0.1 0 (by norm_num) le_rfl <;>
    have h6 := @ite_nonneg (rms < 0.05 ∧ f0 < 150) _ 0.3 0 (by norm_num) le_rfl <;>
    have h7 := @ite_nonneg (sc < 0.3) _ 0.2 0 (by norm_num) le_rfl <;>
    have h8 := @ite_nonneg (rms > 0.1 ∧ pv > 50 ∧ ¬(f0 > 200)) _ 0.3 0 (by norm_num) le_rfl <;>
    have h9 := @ite_nonneg (sc < 0.3) _ 0.1 0 (by norm_num) le_rfl <;>
    have h10 := @ite_nonneg (zcr > 0.1) _ 0.2 0 (by norm_num) le_rfl <;>
    have h11 := @ite_nonneg (zcr > 0.1) _ 0.1 0 (by norm_num) le_rfl <;>
    have h12 := @ite_nonneg (rms > 0.1 ∧ pv > 50 ∧ f0 > 200) _ 0.3 0 (by norm_num) le_rfl <;>
    have h13 := @ite_nonneg (sc > 0.6) _ 0.1 0 (by norm_num) le_rfl <;>
    linarith

lemma emotionScores_length (sc zcr rms f0 pv spr : ℝ) :
    (emotionScores sc zcr rms f0 pv spr).length = 8 := by
  simp [emotionScores]

/-! ## Claim theorems -/

/-- C6: importing the blob produced by `exportModel` into any classifier
yields a classifier whose `predict` output (label, confidence and full
probability vector) is identical to the original's on every feature
vector. -/
theorem import_export_roundtrip_predict (t m : Model) (v : List ℝ) :
    predict (importModel t (exportModel m)) v = predict m v := by
  cases m
  rfl

/-- C1: on a feature vector of the declared input width, `predict` of a
well-formed classifier — trained or not — returns exactly 8 probabilities,
each in `[0,1]`, summing to `1` (hence within `1e-9` of `1.0`), and in the
trained state the distribution is precisely the max-subtraction-stabilised
softmax of the forward pass's logits. -/
theorem predict_probabilities_distribution (m : Model) (v : List ℝ)
    (hwf : WellFormed m) (hv : v.length = inputSize) :
    (predict m v).probabilities.length = 8 ∧
    (∀ p ∈ (predict m v).probabilities, 0 ≤ p ∧ p ≤ 1) ∧
    (predict m v).probabilities.sum = 1 ∧
    |(predict m v).probabilities.sum - 1| ≤ 1e-9 ∧
    (m.isTrained = true → (predict m v).probabilities = softmax (forward m v).2) := by
  obtain ⟨-, -, -, hw2, -, hb2⟩ := hwf
  have hmain : (predict m v).probabilities.length = 8 ∧
      (∀ p ∈ (predict m v).probabilities, 0 ≤ p ∧ p ≤ 1) ∧
      (predict m v).probabilities.sum = 1 ∧
      (m.isTrained = true → (predict m v).probabilities = softmax (forward m v).2) := by
    cases hm : m.isTrained with
    | true =>
      have hp : (predict m v).probabilities = softmax (forward m v).2 := by
        simp [predict, hm]
      have hlen : (forward m v).2.length = 8 := by
        simp [forward, layer, hw2, hb2, outputSize]
      have hne : (forward m v).2 ≠ [] := by
        intro h
        rw [h] at hlen
        simp at hlen
      refine ⟨by rw [hp, softmax_length, hlen], ?_, ?_, fun _ => hp⟩
      · rw [hp]; exact softmax_mem_bounds _
      · rw [hp]; exact softmax_sum_one _ hne
    | false =>
      have hp : predict m v = ruleBasedPrediction v := by simp [predict, hm]
      rw [hp]
      unfold ruleBasedPrediction
      refine ⟨?_, ?_, ?_, ?_⟩
      · simp [emotionScores]
      · exact normalized_mem_bounds _ (emotionScores_pos _ _ _ _ _ _)
      · refine normalized_sum_one _ (emotionScores_pos _ _ _ _ _ _) ?_
        simp [emotionScores]
      · intro h
        exact absurd h (by simp)
  refine ⟨hmain.1, hmain.2.1, hmain.2.2.1, ?_, hmain.2.2.2⟩
  rw [hmain.2.2.1]
  norm_num

/-- Witness for C1 at a concrete trained well-formed model and 39-wide
input. -/
theorem predict_probabilities_distribution_witness :
    WellFormed zeroTrainedModel ∧ (List.replicate 39 (0 : ℝ)).length = inputSize ∧
    (predict zeroTrainedModel (List.replicate 39 0)).probabilities.sum = 1 := by
  have hwf : WellFormed zeroTrainedModel := by
    refine ⟨?_, ?_, ?_, ?_, ?_, ?_⟩ <;>
      simp [zeroTrainedModel, WellFormed, List.mem_replicate, hiddenSize, inputSize, outputSize]
  have hv : (List.replicate 39 (0 : ℝ)).length = inputSize := by simp [inputSize]
  exact ⟨hwf, hv,
    (predict_probabilities_distribution zeroTrainedModel _ hwf hv).2.2.1⟩

lemma emotionScores_sad_case (sc zcr pv spr : ℝ) (h1 : 0.3 ≤ sc) (h2 : sc ≤ 0.6)
    (h3 : zcr ≤ 0.1) (h4 : 2 ≤ spr) (h5 : spr ≤ 5) :
    emotionScores sc zcr 0.02 120 pv spr =
      [1/5, 1/10, 1/10, 2/5, 1/10, 1/10, 1/10, 1/10] := by
  have c1 : ¬((0.02 : ℝ) > 0.1 ∧ pv > 50 ∧ (120 : ℝ) > 200) := by
    rintro ⟨h, -⟩
    norm_num at h
  have c2 : ¬((0.02 : ℝ) > 0.1 ∧ pv > 50 ∧ ¬((120 : ℝ) > 200)) := by
    rintro ⟨h, -⟩
    norm_num at h
  have c3 : (0.02 : ℝ) < 0.05 ∧ (120 : ℝ) < 150 := by norm_num
  have c4 : ¬((0.02 : ℝ) < 0.05 ∧ ¬((120 : ℝ) < 150)) := by
    rintro ⟨-, h⟩
    exact h (by norm_num)
  have c5 : ¬(sc > 0.6) := not_lt.2 h2
  have c6 : ¬(sc < 0.3) := not_lt.2 h1
  have c7 : ¬(zcr > 0.1) := not_lt.2 h3
  have c8 : ¬(spr > 5) := not_lt.2 h5
  have c9 : ¬(spr < 2) := not_lt.2 h4
  simp only [emotionScores, if_pos c3, if_neg c1, if_neg c2, if_neg c4, if_neg c5,
    if_neg c6, if_neg c7, if_neg c8, if_neg c9]
  norm_num

lemma ruleBased_sad_eval (v : List ℝ) (h0 : 0.3 ≤ v.getD 0 0) (h0' : v.getD 0 0 ≤ 0.6)
    (h2 : v.getD 2 0 ≤ 0.1) (h3 : v.getD 3 0 = 0.02) (h4 : v.getD 4 0 = 120)
    (h6 : 2 ≤ v.getD 6 0) (h6' : v.getD 6 0 ≤ 5) :
    ruleBasedPrediction v =
      ⟨"sad", 1/3, [1/6, 1/12, 1/12, 1/3, 1/12, 1/12, 1/12, 1/12]⟩ := by
  unfold ruleBasedPrediction
  rw [h3, h4, emotionScores_sad_case _ _ _ _ h0 h0' h2 h6 h6']
  norm_num [idxOfMax, idxOfAux, listMax, emotions, max_def, noLabel]

lemma emotionScores_no_rules (sc zcr rms f0 pv spr : ℝ)
    (hr1 : ¬(rms > 0.1 ∧ pv > 50)) (hr2 : ¬(rms < 0.05))
    (h1 : 0.3 ≤ sc) (h2 : sc ≤ 0.6) (h3 : zcr ≤ 0.1) (h4 : 2 ≤ spr) (h5 : spr ≤ 5) :
    emotionScores sc zcr rms f0 pv spr =
      [1/5, 1/10, 1/10, 1/10, 1/10, 1/10, 1/10, 1/10] := by
  have c1 : ¬(rms > 0.1 ∧ pv > 50 ∧ f0 > 200) := by
    rintro ⟨a, b, -⟩
    exact hr1 ⟨a, b⟩
  have c2 : ¬(rms > 0.1 ∧ pv > 50 ∧ ¬(f0 > 200)) := by
    rintro ⟨a, b, -⟩
    exact hr1 ⟨a, b⟩
  have c3 : ¬(rms < 0.05 ∧ f0 < 150) := by
    rintro ⟨a, -⟩
    exact hr2 a
  have c4 : ¬(rms < 0.05 ∧ ¬(f0 < 150)) := by
    rintro ⟨a, -⟩
    exact hr2 a
  have c5 : ¬(sc > 0.6) := not_lt.2 h2
  have c6 : ¬(sc < 0.3) := not_lt.2 h1
  have c7 : ¬(zcr > 0.1) := not_lt.2 h3
  have c8 : ¬(spr > 5) := not_lt.2 h5
  have c9 : ¬(spr < 2) := not_lt.2 h4
  simp only [emotionScores, if_neg c1, if_neg c2, if_neg c3, if_neg c4, if_neg c5,
    if_neg c6, if_neg c7, if_neg c8, if_neg c9]
  norm_num

lemma ruleBased_neutral_eval (v : List ℝ)
    (hr1 : ¬(v.getD 3 0 > 0.1 ∧ v.getD 5 0 > 50)) (hr2 : ¬(v.getD 3 0 < 0.05))
    (h0 : 0.3 ≤ v.getD 0 0) (h0' : v.getD 0 0 ≤ 0.6) (h2 : v.getD 2 0 ≤ 0.1)
    (h6 : 2 ≤ v.getD 6 0) (h6' : v.getD 6 0 ≤ 5) :
    ruleBasedPrediction v =
      ⟨"neutral", 2/9, [2/9, 1/9, 1/9, 1/9, 1/9, 1/9, 1/9, 1/9]⟩ := by
  unfold ruleBasedPrediction
  rw [emotionScores_no_rules _ _ _ _ _ _ hr1 hr2 h0 h0' h2 h6 h6']
  norm_num [idxOfMax, idxOfAux, listMax, emotions, max_def, noLabel]

/-- C2 counterexample: on the concrete feature vector with
`rmsEnergy = 0.02`, `f0 = 120` and a neutral baseline, the untrained
classifier assigns "sad" probability `1/3`, which is NOT `≥ 0.4` of the
normalized total — the `0.4` raw score (base `0.1` + increment `0.3`)
normalizes to `0.4/1.2 = 1/3`. -/
theorem sad_probability_below_claimed_bound :
    (predict untrainedModel sadVector).probabilities.getD 3 0 = 1 / 3 ∧
    ¬(0.4 ≤ (predict untrainedModel sadVector).probabilities.getD 3 0) := by
  have hp : predict untrainedModel sadVector = ruleBasedPrediction sadVector := by
    simp [predict, untrainedModel, zeroTrainedModel]
  have he := ruleBased_sad_eval sadVector (by norm_num [sadVector])
    (by norm_num [sadVector]) (by norm_num [sadVector]) (by norm_num [sadVector])
    (by norm_num [sadVector]) (by norm_num [sadVector]) (by norm_num [sadVector])
  rw [hp, he]
  norm_num

/-- C2 (amended): for an untrained classifier, a feature vector with
`rmsEnergy = 0.02 (< 0.05)` and `f0 = 120 (< 150)` over an otherwise-neutral
baseline gets unnormalized sad score `0.4` (base `0.1` plus increment `0.3`),
i.e. normalized sad probability exactly `1/3` — the strict maximum, so the
prediction is "sad" — not `≥ 0.4` as the claim stated. -/
theorem ruleBased_low_energy_predicts_sad (m : Model) (v : List ℝ)
    (hm : m.isTrained = false)
    (h0 : 0.3 ≤ v.getD 0 0) (h0' : v.getD 0 0 ≤ 0.6) (h2 : v.getD 2 0 ≤ 0.1)
    (h3 : v.getD 3 0 = 0.02) (h4 : v.getD 4 0 = 120)
    (h6 : 2 ≤ v.getD 6 0) (h6' : v.getD 6 0 ≤ 5) :
    (predict m v).probabilities.getD 3 0 = 1 / 3 ∧
    (predict m v).emotion = "sad" ∧
    ∀ i < 8, i ≠ 3 → (predict m v).probabilities.getD i 0 < 1 / 3 := by
  have hp : predict m v = ruleBasedPrediction v := by
    simp [predict, hm]
  rw [hp, ruleBased_sad_eval v h0 h0' h2 h3 h4 h6 h6']
  refine ⟨by norm_num, rfl, ?_⟩
  intro i hi hne
  interval_cases i <;> simp_all <;> norm_num

/-- Witness for C2's amended theorem at the concrete vector `sadVector`. -/
theorem ruleBased_low_energy_predicts_sad_witness :
    untrainedModel.isTrained = false ∧ sadVector.getD 3 0 = 0.02 ∧
    sadVector.getD 4 0 = 120 ∧
    (predict untrainedModel sadVector).probabilities.getD 3 0 = 1 / 3 ∧
    (predict untrainedModel sadVector).emotion = "sad" := by
  have h := ruleBased_low_energy_predicts_sad untrainedModel sadVector
    (by simp [untrainedModel, zeroTrainedModel]) (by norm_num [sadVector])
    (by norm_num [sadVector]) (by norm_num [sadVector]) (by norm_num [sadVector])
    (by norm_num [sadVector]) (by norm_num [sadVector]) (by norm_num [sadVector])
  exact ⟨by simp [untrainedModel, zeroTrainedModel], by norm_num [sadVector],
    by norm_num [sadVector], h.1, h.2.1⟩

/-- C10: the rule-based fallback starts "neutral" at base `0.2` and every
other class at `0.1`, so whenever no threshold rule fires the untrained
classifier returns "neutral" with confidence exactly `0.2/0.9 = 2/9` and
probability vector `[2/9, 1/9, …, 1/9]`. -/
theorem ruleBased_neutral_default (m : Model) (v : List ℝ)
    (hm : m.isTrained = false)
    (hr1 : ¬(v.getD 3 0 > 0.1 ∧ v.getD 5 0 > 50)) (hr2 : ¬(v.getD 3 0 < 0.05))
    (h0 : 0.3 ≤ v.getD 0 0) (h0' : v.getD 0 0 ≤ 0.6) (h2 : v.getD 2 0 ≤ 0.1)
    (h6 : 2 ≤ v.getD 6 0) (h6' : v.getD 6 0 ≤ 5) :
    (predict m v).emotion = "neutral" ∧ (predict m v).confidence = 2 / 9 ∧
    (predict m v).probabilities = [2/9, 1/9, 1/9, 1/9, 1/9, 1/9, 1/9, 1/9] := by
  have hp : predict m v = ruleBasedPrediction v := by
    simp [predict, hm]
  rw [hp, ruleBased_neutral_eval v hr1 hr2 h0 h0' h2 h6 h6']
  exact ⟨rfl, rfl, rfl⟩

/-- Witness for C10 at the concrete no-rule vector `neutralVector`. -/
theorem ruleBased_neutral_default_witness :
    untrainedModel.isTrained = false ∧ neutralVector.getD 3 0 = 0.07 ∧
    (predict untrainedModel neutralVector).emotion = "neutral" ∧
    (predict untrainedModel neutralVector).confidence = 2 / 9 := by
  have h := ruleBased_neutral_default untrainedModel neutralVector
    (by simp [untrainedModel, zeroTrainedModel]) (by norm_num [neutralVector])
    (by norm_num [neutralVector]) (by norm_num [neutralVector])
    (by norm_num [neutralVector]) (by norm_num [neutralVector])
    (by norm_num [neutralVector]) (by norm_num [neutralVector])
  exact ⟨by simp [untrainedModel, zeroTrainedModel], by norm_num [neutralVector],
    h.1, h.2.1⟩

lemma dotList_append (row x y : List ℝ) (h : row.length ≤ x.length) :
    dotList row (x ++ y) = dotList row x := by
  induction row generalizing x with
  | nil => simp [dotList]
  | cons w ws ih =>
    cases x with
    | nil => simp at h
    | cons a xs =>
      simp only [List.cons_append, dotList, List.zipWith_cons_cons, List.sum_cons]
      have := ih xs (by simpa using h)
      simp only [dotList] at this
      rw [this]

lemma layer_append (w : List (List ℝ)) (b x y : List ℝ)
    (h : ∀ row ∈ w, row.length ≤ x.length) :
    layer w b (x ++ y) = layer w b x := by
  induction w generalizing b with
  | nil => simp [layer]
  | cons r ws ih =>
    cases b with
    | nil => simp [layer]
    | cons bi bs =>
      simp only [layer, List.zipWith_cons_cons]
      rw [dotList_append r x y (h r (List.mem_cons_self r ws))]
      have := ih bs (fun row hr => h row (List.mem_cons_of_mem r hr))
      simp only [layer] at this
      rw [this]

/-- C3: `predict` performs no input-shape validation.  On a trained
classifier, appending arbitrary extra entries to a feature vector that
already covers every weight row leaves the prediction unchanged: the extra
entries are silently ignored and a numeric result is returned, with no
shape-mismatch error of any kind (the source has no error path at all in
`predict`/`forward`). -/
theorem predict_silently_truncates (m : Model) (v extra : List ℝ)
    (ht : m.isTrained = true)
    (hrows : ∀ row ∈ m.weights1, row.length ≤ v.length) :
    predict m (v ++ extra) = predict m v := by
  have hfw : forward m (v ++ extra) = forward m v := by
    unfold forward
    rw [layer_append m.weights1 m.biases1 v extra hrows]
  simp only [predict, ht, if_true, hfw]

/-- Witness for C3 at the declared 39-wide shape: a 40-entry vector gives
the same numeric prediction as its 39-entry prefix. -/
theorem predict_silently_truncates_witness :
    zeroTrainedModel.isTrained = true ∧
    (∀ row ∈ zeroTrainedModel.weights1,
      row.length ≤ (List.replicate 39 (1 : ℝ)).length) ∧
    predict zeroTrainedModel (List.replicate 39 (1 : ℝ) ++ [5]) =
      predict zeroTrainedModel (List.replicate 39 1) := by
  have h1 : zeroTrainedModel.isTrained = true := rfl
  have h2 : ∀ row ∈ zeroTrainedModel.weights1,
      row.length ≤ (List.replicate 39 (1 : ℝ)).length := by
    intro row hr
    simp only [zeroTrainedModel, List.mem_replicate] at hr
    simp [hr.2, inputSize]
  exact ⟨h1, h2, predict_silently_truncates _ _ _ h1 h2⟩

lemma getD_zipWith {α β γ : Type} (f : α → β → γ) (l1 : List α) (l2 : List β)
    (i : ℕ) (d1 : α) (d2 : β) (d : γ)
    (h1 : i < l1.length) (h2 : i < l2.length) :
    (List.zipWith f l1 l2).getD i d = f (l1.getD i d1) (l2.getD i d2) := by
  induction l1 generalizing l2 i with
  | nil => simp at h1
  | cons a s ih =>
    cases l2 with
    | nil => simp at h2
    | cons b t =>
      cases i with
      | zero => simp
      | succ n =>
        simp only [List.zipWith_cons_cons, List.getD_cons_succ]
        exact ih t n (by simpa using h1) (by simpa using h2)

lemma backward_biases2_entry (m : Model) (x h out t : List ℝ) (lr : ℝ) (i : ℕ)
    (hib : i < m.biases2.length) (hio : i < out.length) (hit : i < t.length) :
    (backward m x h out t lr).biases2.getD i 0 =
      m.biases2.getD i 0 - lr * (out.getD i 0 - t.getD i 0) := by
  unfold backward
  rw [getD_zipWith _ m.biases2 _ i 0 0 0 hib
    (by rw [List.length_zipWith]; exact lt_min hio hit)]
  rw [getD_zipWith _ out t i 0 0 0 hio hit]

lemma backward_weights2_entry (m : Model) (x h out t : List ℝ) (lr : ℝ) (i j : ℕ)
    (hiw : i < m.weights2.length) (hio : i < out.length) (hit : i < t.length)
    (hj : j < (m.weights2.getD i []).length) (hjh : j < h.length) :
    ((backward m x h out t lr).weights2.getD i []).getD j 0 =
      (m.weights2.getD i []).getD j 0 -
        lr * (out.getD i 0 - t.getD i 0) * h.getD j 0 := by
  unfold backward
  rw [getD_zipWith _ m.weights2 _ i [] 0 [] hiw
    (by rw [List.length_zipWith]; exact lt_min hio hit)]
  rw [getD_zipWith _ out t i 0 0 0 hio hit]
  rw [getD_zipWith _ (m.weights2.getD i []) h j 0 0 0 hj hjh]

lemma oneHot_length (k : ℕ) : (oneHot k).length = 8 := by
  simp [oneHot, outputSize]

/-- C4 (amended): in each training update for a sample with known label
index `k`, the output-layer gradient is `finalOutput − target` — the raw
pre-softmax logits minus the one-hot target, NOT `softmax(output) − target`
— and `W2`/`b2` are updated by `learningRate × gradient × hidden-activation`
and `learningRate × gradient` respectively. -/
theorem trainStep_output_layer_update (m : Model) (s : Sample) (k i j : ℕ)
    (hk : emotions.findIdx? (fun e => e == s.emotion) = some k)
    (hib : i < m.biases2.length) (hiw : i < m.weights2.length)
    (hio : i < (forward m s.features).2.length) (hi8 : i < 8)
    (hj : j < (m.weights2.getD i []).length)
    (hjh : j < (forward m s.features).1.length) :
    (trainStep learningRate m s).biases2.getD i 0 =
      m.biases2.getD i 0 - learningRate *
        ((forward m s.features).2.getD i 0 - (oneHot k).getD i 0) ∧
    ((trainStep learningRate m s).weights2.getD i []).getD j 0 =
      (m.weights2.getD i []).getD j 0 - learningRate *
        ((forward m s.features).2.getD i 0 - (oneHot k).getD i 0) *
        (forward m s.features).1.getD j 0 := by
  have hstep : trainStep learningRate m s =
      backward m s.features (forward m s.features).1 (forward m s.features).2
        (oneHot k) learningRate := by
    simp [trainStep, hk]
  rw [hstep]
  have hit : i < (oneHot k).length := by rw [oneHot_length]; exact hi8
  exact ⟨backward_biases2_entry m _ _ _ _ _ i hib hio hit,
    backward_weights2_entry m _ _ _ _ _ i j hiw hio hit hj hjh⟩

lemma tiny_findIdx : emotions.findIdx? (fun e => e == tinySample.emotion) = some 0 := by
  simp [emotions, tinySample]

lemma tiny_forward : forward tinyModel tinySample.features = ([0], [0]) := by
  simp [forward, tinyModel, tinySample, layer, dotList, relu]

/-- Witness for C4's amended theorem at a concrete one-unit model. -/
theorem trainStep_output_layer_update_witness :
    emotions.findIdx? (fun e => e == tinySample.emotion) = some 0 ∧
    (trainStep learningRate tinyModel tinySample).biases2.getD 0 0 =
      tinyModel.biases2.getD 0 0 - learningRate *
        ((forward tinyModel tinySample.features).2.getD 0 0 - (oneHot 0).getD 0 0) := by
  refine ⟨tiny_findIdx, ?_⟩
  have h := trainStep_output_layer_update tinyModel tinySample 0 0 0 tiny_findIdx
    (by simp [tinyModel]) (by simp [tinyModel]) (by rw [tiny_forward]; simp)
    (by norm_num) (by simp [tinyModel]) (by rw [tiny_forward]; simp)
  exact h.1

/-- C4 counterexample: at a concrete model and sample the code's bias update
is `b2[0] − lr·(output − target) = 0.01`, while the claimed
`softmax(output) − target` gradient would give `0`; the two differ, so the
gradient is NOT `softmax(output) − target`. -/
theorem trainStep_gradient_not_softmax :
    (trainStep learningRate tinyModel tinySample).biases2.getD 0 0 = 1 / 100 ∧
    tinyModel.biases2.getD 0 0 - learningRate *
      ((softmax (forward tinyModel tinySample.features).2).getD 0 0 -
        (oneHot 0).getD 0 0) = 0 ∧
    (1 / 100 : ℝ) ≠ 0 := by
  have hb := backward_biases2_entry tinyModel tinySample.features
    (forward tinyModel tinySample.features).1 (forward tinyModel tinySample.features).2
    (oneHot 0) learningRate 0 (by simp [tinyModel])
    (by rw [tiny_forward]; simp) (by rw [oneHot_length]; norm_num)
  have hstep : trainStep learningRate tinyModel tinySample =
      backward tinyModel tinySample.features (forward tinyModel tinySample.features).1
        (forward tinyModel tinySample.features).2 (oneHot 0) learningRate := by
    simp [trainStep, tiny_findIdx]
  have hone : (oneHot 0).getD 0 0 = 1 := by
    simp [oneHot, outputSize, List.range_succ]
  refine ⟨?_, ?_, by norm_num⟩
  · rw [hstep, hb, tiny_forward, hone]
    norm_num [tinyModel, learningRate]
  · have hsm : softmax (forward tinyModel tinySample.features).2 = [1] := by
      rw [tiny_forward]
      simp [softmax, listMax, Real.exp_zero]
    rw [hsm, hone]
    norm_num [tinyModel, learningRate]

lemma trainStep_skip (lr : ℝ) (m : Model) (s : Sample) (h : s.emotion ∉ emotions) :
    trainStep lr m s = m := by
  have hnone : emotions.findIdx? (fun e => e == s.emotion) = none := by
    rw [List.findIdx?_eq_none_iff]
    intro x hx
    exact beq_eq_false_iff_ne.2 (fun he => h (he ▸ hx))
  simp [trainStep, hnone]

lemma foldl_trainStep_id (lr : ℝ) (l : List Sample)
    (hl : ∀ s ∈ l, s.emotion ∉ emotions) :
    ∀ m : Model, l.foldl (trainStep lr) m = m := by
  induction l with
  | nil => intro m; rfl
  | cons a t ih =>
    intro m
    simp only [List.foldl_cons]
    rw [trainStep_skip lr m a (hl a (List.mem_cons_self a t))]
    exact ih (fun s hs => hl s (List.mem_cons_of_mem a hs)) m

lemma foldl_epochs_id {α : Type} (g : Model → α → Model) (l : List α)
    (hg : ∀ (m : Model) (e : α), g m e = m) :
    ∀ m : Model, l.foldl g m = m := by
  induction l with
  | nil => intro m; rfl
  | cons a t ih =>
    intro m
    simp only [List.foldl_cons, hg]
    exact ih m

/-- C5: training (a) skips every sample whose label is outside the 8-class
list, with no error and no parameter change for that sample, (b) runs the
fixed `numEpochs = 100` epoch schedule with no early stopping, and (c) sets
the trained flag on completion, leaving all weights and biases untouched
when every sample of the (possibly empty) corpus is skipped.  The shuffle
oracle covers the source's `sort(() => Math.random() - 0.5)`, which yields
some permutation of the corpus each epoch. -/
theorem trainModel_training_policy (m : Model) (data : List Sample)
    (shuffle : ℕ → List Sample → List Sample)
    (hs : ∀ e, (shuffle e data).Perm data) :
    (trainModel m data shuffle).isTrained = true ∧
    (∀ (m' : Model) (s : Sample), s.emotion ∉ emotions →
      trainStep learningRate m' s = m') ∧
    ((∀ s ∈ data, s.emotion ∉ emotions) →
      trainModel m data shuffle = { m with isTrained := true }) ∧
    numEpochs = 100 := by
  refine ⟨rfl, fun m' s h => trainStep_skip _ m' s h, ?_, rfl⟩
  intro hall
  have hepoch : ∀ (m' : Model) (e : ℕ),
      (shuffle e data).foldl (trainStep learningRate) m' = m' := by
    intro m' e
    refine foldl_trainStep_id _ _ ?_ m'
    intro s hsm
    exact hall s ((hs e).mem_iff.1 hsm)
  unfold trainModel
  rw [foldl_epochs_id _ (List.range numEpochs) (fun m' e => hepoch m' e) m]

/-- Witness for C5 on a one-sample corpus with an unknown label and the
identity shuffle. -/
theorem trainModel_training_policy_witness :
    (∀ e, ((fun (_ : ℕ) (l : List Sample) => l) e unknownCorpus).Perm unknownCorpus) ∧
    trainModel untrainedModel unknownCorpus (fun _ l => l) =
      { untrainedModel with isTrained := true } := by
  have hs : ∀ e, ((fun (_ : ℕ) (l : List Sample) => l) e unknownCorpus).Perm unknownCorpus :=
    fun _ => List.Perm.refl _
  refine ⟨hs, ?_⟩
  refine (trainModel_training_policy untrainedModel unknownCorpus _ hs).2.2.1 ?_
  intro s hsm
  simp only [unknownCorpus, List.mem_cons, List.not_mem_nil, or_false] at hsm
  subst hsm
  simp [emotions]

lemma sum_zipWith_zero {M : Type} [AddCommMonoid M] (g : ℝ → ℝ → M)
    (hg : g 0 0 = 0) :
    ∀ (l1 l2 : List ℝ), (∀ x ∈ l1, x = 0) → (∀ x ∈ l2, x = 0) →
      (List.zipWith g l1 l2).sum = 0 := by
  intro l1
  induction l1 with
  | nil => intro l2 _ _; rfl
  | cons a t ih =>
    intro l2 h1 h2
    cases l2 with
    | nil => rfl
    | cons b s =>
      simp only [List.zipWith_cons_cons, List.sum_cons]
      rw [h1 a (List.mem_cons_self a t), h2 b (List.mem_cons_self b s), hg, zero_add]
      exact ih s (fun x hx => h1 x (List.mem_cons_of_mem a hx))
        (fun x hx => h2 x (List.mem_cons_of_mem b hx))

lemma computeRMSEnergy_zero (signal : List ℝ) (hz : ∀ x ∈ signal, x = 0) :
    computeRMSEnergy signal = 0 := by
  unfold computeRMSEnergy
  have hsum : (signal.map (fun x => x * x)).sum = 0 := by
    refine List.sum_eq_zero ?_
    intro y hy
    rcases List.mem_map.1 hy with ⟨x, hx, rfl⟩
    rw [hz x hx, mul_zero]
  rw [hsum, zero_div, Real.sqrt_zero]

lemma crossingCount_zero (signal : List ℝ) (hz : ∀ x ∈ signal, x = 0) :
    crossingCount signal = 0 := by
  unfold crossingCount
  refine sum_zipWith_zero _ ?_ signal signal.tail hz
    (fun x hx => hz x (List.mem_of_mem_tail hx))
  norm_num

lemma computeZeroCrossingRate_zero (signal : List ℝ) (hz : ∀ x ∈ signal, x = 0) :
    computeZeroCrossingRate signal = 0 := by
  unfold computeZeroCrossingRate
  rw [crossingCount_zero signal hz]
  simp

lemma autocorr_zero (signal : List ℝ) (period : ℕ) (hz : ∀ x ∈ signal, x = 0) :
    autocorr signal period = 0 := by
  unfold autocorr
  rw [sum_zipWith_zero _ (by norm_num) signal (signal.drop period) hz
    (fun x hx => hz x (List.drop_subset period signal hx))]
  exact zero_div _

lemma estimateF0_zero (signal : List ℝ) (sampleRate : ℕ)
    (hz : ∀ x ∈ signal, x = 0) :
    estimateF0 signal sampleRate =
      (sampleRate : ℝ) / ((sampleRate / 500 : ℕ) : ℝ) := by
  unfold estimateF0
  have hfold : ∀ (L : List ℕ),
      L.foldl (fun acc period =>
        if autocorr signal period > acc.1 then (autocorr signal period, period) else acc)
        ((0 : ℝ), sampleRate / 500) = ((0 : ℝ), sampleRate / 500) := by
    intro L
    induction L with
    | nil => rfl
    | cons p t ih =>
      simp only [List.foldl_cons, autocorr_zero signal p hz, gt_iff_lt,
        lt_irrefl, if_false]
      exact ih
  simp only [hfold]

lemma f0_fallback_out_of_band (sampleRate : ℕ) :
    ¬(50 < (sampleRate : ℝ) / ((sampleRate / 500 : ℕ) : ℝ) ∧
      (sampleRate : ℝ) / ((sampleRate / 500 : ℕ) : ℝ) < 500) := by
  rcases Nat.eq_zero_or_pos (sampleRate / 500) with hm | hm
  · rw [hm]
    push_cast
    rw [div_zero]
    rintro ⟨h, -⟩
    norm_num at h
  · rintro ⟨-, h⟩
    have hle : (sampleRate / 500) * 500 ≤ sampleRate := Nat.div_mul_le_self _ _
    have hle' : ((sampleRate / 500 : ℕ) : ℝ) * 500 ≤ (sampleRate : ℝ) := by
      exact_mod_cast hle
    have hmpos : (0 : ℝ) < ((sampleRate / 500 : ℕ) : ℝ) := by exact_mod_cast hm
    rw [div_lt_iff hmpos] at h
    nlinarith

lemma computePitchVariation_zero (signal : List ℝ) (sampleRate : ℕ)
    (hz : ∀ x ∈ signal, x = 0) :
    computePitchVariation signal sampleRate = 0 := by
  unfold computePitchVariation
  have hnil : (((frameStarts (signal.length - frameLength sampleRate)
      (hopLength sampleRate)).map
        (fun i => estimateF0 ((signal.drop i).take (frameLength sampleRate))
          sampleRate)).filter (fun p => decide (50 < p ∧ p < 500))) = [] := by
    rw [List.filter_eq_nil_iff]
    intro a ha
    rcases List.mem_map.1 ha with ⟨i, -, rfl⟩
    have hframe : ∀ x ∈ (signal.drop i).take (frameLength sampleRate), x = 0 :=
      fun x hx => hz x (List.drop_subset i signal (List.take_subset _ _ hx))
    rw [estimateF0_zero _ _ hframe]
    simpa using f0_fallback_out_of_band sampleRate
  simp only [hnil]
  norm_num

lemma getD_all_zero (l : List ℝ) (i : ℕ) (hz : ∀ x ∈ l, x = 0) :
    l.getD i 0 = 0 := by
  induction l generalizing i with
  | nil => simp
  | cons a t ih =>
    cases i with
    | zero => exact hz a (List.mem_cons_self a t)
    | succ n =>
      simp only [List.getD_cons_succ]
      exact ih n (fun x hx => hz x (List.mem_cons_of_mem a hx))

lemma estimateSpeakingRate_zero (signal : List ℝ) (sampleRate : ℕ)
    (hz : ∀ x ∈ signal, x = 0) :
    estimateSpeakingRate signal sampleRate = 0 := by
  unfold estimateSpeakingRate
  have hzero : ∀ x ∈ (frameStarts (signal.length - sampleRate / 100)
      (sampleRate / 100)).map
        (fun i => computeRMSEnergy ((signal.drop i).take (sampleRate / 100))), x = 0 := by
    intro x hx
    rcases List.mem_map.1 hx with ⟨i, -, rfl⟩
    exact computeRMSEnergy_zero _
      (fun y hy => hz y (List.drop_subset i signal (List.take_subset _ _ hy)))
  have hsum : ((frameStarts (signal.length - sampleRate / 100)
      (sampleRate / 100)).map
        (fun i => computeRMSEnergy ((signal.drop i).take (sampleRate / 100)))).sum = 0 :=
    List.sum_eq_zero hzero
  have hfilter : ∀ (L : List ℕ) (thr : ℝ), thr = 0 →
      (L.filter (fun i =>
        decide (((frameStarts (signal.length - sampleRate / 100)
          (sampleRate / 100)).map
            (fun i => computeRMSEnergy ((signal.drop i).take (sampleRate / 100)))).getD i 0 > thr ∧
          ((frameStarts (signal.length - sampleRate / 100) (sampleRate / 100)).map
            (fun i => computeRMSEnergy ((signal.drop i).take (sampleRate / 100)))).getD i 0 >
          ((frameStarts (signal.length - sampleRate / 100) (sampleRate / 100)).map
            (fun i => computeRMSEnergy ((signal.drop i).take (sampleRate / 100)))).getD (i - 1) 0 ∧
          ((frameStarts (signal.length - sampleRate / 100) (sampleRate / 100)).map
            (fun i => computeRMSEnergy ((signal.drop i).take (sampleRate / 100)))).getD i 0 >
          ((frameStarts (signal.length - sampleRate / 100) (sampleRate / 100)).map
            (fun i => computeRMSEnergy ((signal.drop i).take (sampleRate / 100)))).getD (i + 1) 0)))
        = [] := by
    intro L thr hthr
    rw [List.filter_eq_nil_iff]
    intro a _
    rw [getD_all_zero _ _ hzero, hthr]
    simp
  simp only [hsum, zero_div, zero_mul, hfilter _ _ rfl, List.length_nil,
    Nat.cast_zero, zero_div]

/-- C7: on a non-empty all-zero signal with positive sample rate, RMS energy
is `0`, the zero-crossing rate is `0`, the f0 estimate falls back to the
upper-bound candidate `sampleRate / ⌊sampleRate/500⌋`, the pitch variation is
`0` and the speaking rate is `0`. -/
theorem zero_signal_features (signal : List ℝ) (sampleRate : ℕ)
    (hne : signal ≠ []) (hz : ∀ x ∈ signal, x = 0) (hsr : 0 < sampleRate) :
    computeRMSEnergy signal = 0 ∧
    computeZeroCrossingRate signal = 0 ∧
    estimateF0 signal sampleRate =
      (sampleRate : ℝ) / ((sampleRate / 500 : ℕ) : ℝ) ∧
    computePitchVariation signal sampleRate = 0 ∧
    estimateSpeakingRate signal sampleRate = 0 :=
  ⟨computeRMSEnergy_zero signal hz, computeZeroCrossingRate_zero signal hz,
   estimateF0_zero signal sampleRate hz,
   computePitchVariation_zero signal sampleRate hz,
   estimateSpeakingRate_zero signal sampleRate hz⟩

/-- Witness for C7 at the one-sample zero signal and 16 kHz: the f0 fallback
is `16000/32 = 500` Hz. -/
theorem zero_signal_features_witness :
    ([(0 : ℝ)] ≠ []) ∧ (∀ x ∈ [(0 : ℝ)], x = 0) ∧ (0 < 16000) ∧
    estimateF0 [(0 : ℝ)] 16000 = 500 ∧
    computePitchVariation [(0 : ℝ)] 16000 = 0 := by
  have h := zero_signal_features [(0 : ℝ)] 16000 (by simp) (by simp) (by norm_num)
  refine ⟨by simp, by simp, by norm_num, ?_, h.2.2.2.1⟩
  rw [h.2.2.1]
  norm_num

lemma applyMelFilterBank_length (fft : List (ℝ × ℝ)) (sampleRate : ℕ) :
    (applyMelFilterBank fft sampleRate).length = numFilters := by
  simp only [applyMelFilterBank, List.length_map, List.length_range]

lemma computeDCT_length (melSpectrum : List ℝ) :
    (computeDCT melSpectrum).length = melSpectrum.length := by
  simp only [computeDCT, List.length_map, List.length_range]

/-- C8: MFCC extraction yields exactly
`⌊(N − ⌊0.025·sr⌋)/⌊0.01·sr⌋⌋ + 1` frames of 13 coefficients each whenever
the signal covers at least one frame, and the empty frame sequence (with no
exception — the function is total) when it is shorter than one frame.  The
hop `⌊0.01·sr⌋` must be positive for the claim's formula (and the source's
loop) to make sense. -/
theorem extractMFCC_frames (signal : List ℝ) (sampleRate : ℕ)
    (hhl : 0 < hopLength sampleRate) :
    (frameLength sampleRate ≤ signal.length →
      (extractMFCC signal sampleRate).length =
        (signal.length - frameLength sampleRate) / hopLength sampleRate + 1) ∧
    (∀ f ∈ extractMFCC signal sampleRate, f.length = 13) ∧
    (signal.length < frameLength sampleRate → extractMFCC signal sampleRate = []) := by
  refine ⟨?_, ?_, ?_⟩
  · intro hle
    have hcast : ((signal.length : ℤ) - frameLength sampleRate) =
        ((signal.length - frameLength sampleRate : ℕ) : ℤ) := by
      rw [Nat.cast_sub hle]
    have hnum : mfccNumFrames signal.length (frameLength sampleRate)
        (hopLength sampleRate) =
        (((signal.length - frameLength sampleRate) / hopLength sampleRate + 1 : ℕ) : ℤ) := by
      unfold mfccNumFrames
      rw [hcast, ← Int.ofNat_fdiv]
      push_cast
      ring
    have hlen : (extractMFCC signal sampleRate).length =
        (mfccNumFrames signal.length (frameLength sampleRate)
          (hopLength sampleRate)).toNat := by
      simp only [extractMFCC, List.length_map, List.length_range]
    rw [hlen, hnum, Int.toNat_ofNat]
  · intro f hf
    simp only [extractMFCC, List.mem_map] at hf
    rcases hf with ⟨i, -, rfl⟩
    simp [computeDCT_length, applyMelFilterBank_length, numFilters]
  · intro hlt
    have hneg : ((signal.length : ℤ) - frameLength sampleRate) < 0 := by
      have : (signal.length : ℤ) < frameLength sampleRate := by exact_mod_cast hlt
      linarith
    have hbpos : (0 : ℤ) < (hopLength sampleRate : ℤ) := by exact_mod_cast hhl
    have hfd : Int.fdiv ((signal.length : ℤ) - frameLength sampleRate)
        (hopLength sampleRate) < 0 := Int.fdiv_neg' hneg hbpos
    have hzero : (mfccNumFrames signal.length (frameLength sampleRate)
        (hopLength sampleRate)).toNat = 0 := by
      refine Int.toNat_of_nonpos ?_
      unfold mfccNumFrames
      omega
    simp [extractMFCC, hzero]

/-- Witness for C8: one second of silence at 16 kHz gives
`⌊(16000 − 400)/160⌋ + 1 = 98` frames. -/
theorem extractMFCC_frames_witness :
    0 < hopLength 16000 ∧
    frameLength 16000 ≤ (List.replicate 16000 (0 : ℝ)).length ∧
    (extractMFCC (List.replicate 16000 0) 16000).length = 98 := by
  have hhl : 0 < hopLength 16000 := by decide
  have hfl : frameLength 16000 ≤ (List.replicate 16000 (0 : ℝ)).length := by
    rw [List.length_replicate]
    decide
  refine ⟨hhl, hfl, ?_⟩
  rw [(extractMFCC_frames (List.replicate 16000 0) 16000 hhl).1 hfl,
    List.length_replicate]
  decide

lemma crossingCount_eq_signDiffCount (signal : List ℝ) :
    crossingCount signal = signDiffCount signal := by
  induction signal with
  | nil => rfl
  | cons a t ih =>
    cases t with
    | nil => rfl
    | cons b s =>
      have hc : crossingCount (a :: b :: s) =
          (if (0 ≤ a ∧ ¬0 ≤ b) ∨ (¬0 ≤ a ∧ 0 ≤ b) then 1 else 0) +
            crossingCount (b :: s) := by
        simp [crossingCount]
      have hs : signDiffCount (a :: b :: s) =
          signDiffCount (b :: s) + (if ¬(0 ≤ a ↔ 0 ≤ b) then 1 else 0) := by
        unfold signDiffCount
        simp only [List.length_cons, Nat.add_sub_cancel, List.range_succ_eq_map,
          List.countP_cons, List.countP_map]
        simp [Function.comp_def, decide_eq_true_eq, List.getElem?_cons_succ]
      rw [hc, hs, ih]
      have hiff : ((0 ≤ a ∧ ¬0 ≤ b) ∨ (¬0 ≤ a ∧ 0 ≤ b)) ↔ ¬(0 ≤ a ↔ 0 ≤ b) := by
        tauto
      rw [if_congr hiff rfl rfl]
      omega

/-- C9 counterexample: on the two-sample signal `[1, -1]` the code returns
`1/2` (crossing count divided by the signal length `2`), while the fraction
of adjacent sample pairs whose signs differ is `1/1 = 1`: the denominator is
the sample count, not the pair count. -/
theorem zcr_not_pair_fraction :
    computeZeroCrossingRate [(1 : ℝ), -1] = 1 / 2 ∧
    (signDiffCount [(1 : ℝ), -1] : ℝ) /
      ((([(1 : ℝ), -1] : List ℝ).length - 1 : ℕ) : ℝ) = 1 ∧
    (1 / 2 : ℝ) ≠ 1 := by
  have hcount : crossingCount [(1 : ℝ), -1] = 1 := by
    have h1 : ¬(0 : ℝ) ≤ -1 := by norm_num
    simp [crossingCount, h1]
  have hsd : signDiffCount [(1 : ℝ), -1] = 1 := by
    rw [← crossingCount_eq_signDiffCount]
    exact hcount
  refine ⟨?_, ?_, by norm_num⟩
  · unfold computeZeroCrossingRate
    rw [hcount]
    norm_num
  · rw [hsd]
    norm_num

/-- C9 (amended): for every non-empty signal the zero-crossing rate equals
the number of adjacent sample pairs whose signs differ under the
`(x ≥ 0)` / `(x < 0)` test — so a transition through exactly `0` counts —
divided by the total number of samples `N` (not by the `N − 1` pairs). -/
theorem zcr_signDiff_over_sample_count (signal : List ℝ) (hne : signal ≠ []) :
    computeZeroCrossingRate signal = (signDiffCount signal : ℝ) / signal.length := by
  unfold computeZeroCrossingRate
  rw [crossingCount_eq_signDiffCount]

/-- Witness for C9's amended theorem at `[1, -1]`. -/
theorem zcr_signDiff_over_sample_count_witness :
    ([(1 : ℝ), -1] ≠ []) ∧
    computeZeroCrossingRate [(1 : ℝ), -1] =
      (signDiffCount [(1 : ℝ), -1] : ℝ) / (([(1 : ℝ), -1] : List ℝ).length : ℝ) :=
  ⟨by simp, zcr_signDiff_over_sample_count _ (by simp)⟩

end EmotionDetection
